import Mathlib

/-!
Verification development for the `MangaseeDL.py` downloader.

The Python source is shallowly embedded: pure helpers become Lean functions,
network and filesystem effects become explicit oracles/state, exceptions become
`Except`/explicit outcome values.  Machine integers are `Nat`/`Int` (Python ints
are unbounded, so no wrap-around modelling is needed).
-/

namespace MangaseeDL

/-! ## Basic string/number helpers (MangaseeDL.py lines 18, 40-53) -/

def MANGASEE123HOST : String := "https://mangasee123.com"

/-- Value of a decimal digit character, `none` for non-digits. -/
def digitVal? (c : Char) : Option Nat :=
  if '0' ≤ c ∧ c ≤ '9' then some (c.toNat - '0'.toNat) else none

/-- Accumulating base-10 parser over a character list. -/
def parseDigitsAux : List Char → Nat → Option Nat
  | [], acc => some acc
  | c :: rest, acc => (digitVal? c).bind (fun d => parseDigitsAux rest (acc * 10 + d))

/-- Parse a non-empty all-digit character list as a natural number. -/
def parseDigits : List Char → Option Nat
  | [] => none
  | l => parseDigitsAux l 0

/-- Model of Python `int(s, base=10)`.  `none` models the `ValueError` raised on
a malformed literal.  (Python additionally tolerates surrounding whitespace and
underscore digit separators; the labels handled here are plain digit strings,
so those lexical extras are not modelled.) -/
def pyIntBase10 (s : String) : Option Int :=
  match s.data with
  | [] => none
  | c :: rest =>
    if c = '-' then (parseDigits rest).map (fun (n : Nat) => -(n : Int))
    else if c = '+' then (parseDigits rest).map (fun (n : Nat) => ((n : Int)))
    else (parseDigits (c :: rest)).map (fun (n : Nat) => ((n : Int)))

/-- `remove_leading_zeros` (lines 40-45): `str(int(num, base=10))`.
`none` models the uncaught `ValueError` from `int`. -/
def remove_leading_zeros (num : String) : Option String :=
  (pyIntBase10 num).map (fun i => toString i)

/-- Python `str.zfill` for the digit strings used here (the sign-aware case of
`zfill` never arises: inputs are decimal representations of natural numbers). -/
def zfill (s : String) (total_len : Nat) : String :=
  String.mk (List.replicate (total_len - s.length) '0') ++ s

/-- `add_leading_zeros` (lines 48-53): `str(num).zfill(total_len)`. -/
def add_leading_zeros (num : Nat) (total_len : Nat) : String :=
  zfill (toString num) total_len

/-- `get_chapter_first_page_url` (lines 56-64). -/
def get_chapter_first_page_url (manga_name chapter page : String) : String :=
  MANGASEE123HOST ++ "/read-online/" ++ manga_name ++ "-chapter-" ++ chapter
    ++ "-page-" ++ page ++ ".html"

/-- `get_referer_for_name` (lines 67-73). -/
def get_referer_for_name (manga_name : String) : String :=
  MANGASEE123HOST ++ "/manga/" ++ manga_name

/-- `get_page_image_url` (lines 76-83), at its annotated type `chapter : int`. -/
def get_page_image_url (host name : String) (chapter page : Nat) : String :=
  "https://" ++ host ++ "/manga/" ++ name ++ "/" ++ add_leading_zeros chapter 4
    ++ "-" ++ add_leading_zeros page 3 ++ ".png"

/-- `get_page_image_url` as actually invoked by the chapter-download flow, where
(by Python duck typing) `chapter` is the raw sliced label *string* and
`add_leading_zeros` reduces to `str(chapter).zfill(4)` on it. -/
def get_page_image_url_of_str (host name chapter_s : String) (page : Nat) : String :=
  "https://" ++ host ++ "/manga/" ++ name ++ "/" ++ zfill chapter_s 4
    ++ "-" ++ add_leading_zeros page 3 ++ ".png"

/-- Python `label[1:-1]`: drop the first and the last character. -/
def sliceOneOne (s : String) : String :=
  String.mk ((s.data.drop 1).dropLast)

/-- The chapter-id normalization used by `get_manga_details` (line 115):
`int(remove_leading_zeros(chapter_detail["Chapter"][1:-1]))`. -/
def chapterIdOfLabel (label : String) : Option Int :=
  (remove_leading_zeros (sliceOneOne label)).bind pyIntBase10

/-! ## Decimal digits: round trip between `toString` and `parseDigits`

These lemmas let later proofs identify distinct page numbers with distinct
URL/path strings and evaluate the normalizer on symbolic digit strings. -/

/-- Most-significant-digit-first decimal digits of a natural number. -/
def natDigits (n : Nat) : List Char :=
  if _h : n < 10 then [Nat.digitChar n]
  else natDigits (n / 10) ++ [Nat.digitChar (n % 10)]
  decreasing_by exact Nat.div_lt_self (by omega) (by omega)

/-! ## Catalog model (`get_manga_details`, lines 86-118)

The HTTP fetch and JSON decode feeding the loop are oracles: the model starts
from the decoded `vm.CHAPTERS` array, each element of which carries the raw
`"Chapter"` label and the (numeric) `"Page"` page count, and embeds the
dict-building loop of lines 112-117 exactly. -/

/-- One element of the decoded `vm.CHAPTERS` JSON array, restricted to the two
fields the program reads.  `Page` is the page count as consumed by
`int(ch_detail["Page"])`. -/
structure ChapterDetail where
  Chapter : String
  Page : Nat
  deriving DecidableEq, Repr

/-- Python `dict` assignment `d[k] = v`: overwrite in place if the key exists
(keeping its original insertion position, as CPython does), else append. -/
def dictInsert (k : Int) (v : ChapterDetail) (d : List (Int × ChapterDetail)) :
    List (Int × ChapterDetail) :=
  if d.any (fun e => e.1 = k) then
    d.map (fun e => if e.1 = k then (k, v) else e)
  else d ++ [(k, v)]

/-- Python `d.get(k)` / `d[k]` lookup on the insertion-ordered dict model. -/
def dictGet (d : List (Int × ChapterDetail)) (k : Int) : Option ChapterDetail :=
  (d.find? (fun e => e.1 = k)).map (fun e => e.2)

/-- The dict-building loop of `get_manga_details` (lines 112-117):
`chapter_details_dict[int(remove_leading_zeros(cd["Chapter"][1:-1]))] = cd`.
`.error` models the uncaught `ValueError` when a label does not reduce to a
base-10 integer. -/
def buildChapterDetailsDict :
    List ChapterDetail → List (Int × ChapterDetail) →
      Except String (List (Int × ChapterDetail))
  | [], acc => .ok acc
  | cd :: rest, acc =>
    match chapterIdOfLabel cd.Chapter with
    | none => .error "ValueError: invalid literal for int() with base 10"
    | some k => buildChapterDetailsDict rest (dictInsert k cd acc)

/-! ## Chapter selection (`__main__`, lines 270-296)

The `try` block resolving `target_chapters`: `.error` models the
`except KeyError` handler, which prints diagnostics and calls `sys.exit()`. -/

/-- Resolved chapters plus the ids printed as "Chapter N is not available,
skipping...". -/
structure Resolution where
  resolved : List ChapterDetail
  missing : List Int
  deriving DecidableEq, Repr

/-- Python `range(s, e + 1)`. -/
def intRangeIncl (s e : Int) : List Int :=
  (List.range (e + 1 - s).toNat).map (fun (i : Nat) => s + (i : Int))

/-- The `for ch in range(ch_start, ch_end + 1)` loop body (lines 281-286). -/
def rangeResolveLoop (d : List (Int × ChapterDetail)) :
    List Int → List ChapterDetail → List Int → List ChapterDetail × List Int
  | [], targets, missing => (targets, missing)
  | ch :: rest, targets, missing =>
    match dictGet d ch with
    | none => rangeResolveLoop d rest targets (missing ++ [ch])
    | some r => rangeResolveLoop d rest (targets ++ [r]) missing

/-- Python truthiness of an optional-int argparse value: `None` and `0` are
falsy. -/
def pyTruthyOptInt : Option Int → Bool
  | none => false
  | some v => v != 0

/-- The selector resolution of `__main__` (lines 270-296).  The `.getD 0`
projections are only evaluated under truthiness guards that guarantee the
option is `some`. -/
def resolveTargets (chapters_dict : List (Int × ChapterDetail))
    (chapter_start chapter_end : Option Int) : Except String Resolution :=
  if pyTruthyOptInt chapter_start = false then
    .ok ⟨chapters_dict.map (fun e => e.2), []⟩
  else if pyTruthyOptInt chapter_end = false then
    match dictGet chapters_dict (chapter_start.getD 0) with
    | some r => .ok ⟨[r], []⟩
    | none => .error "Could not find specified chapter(s)!"
  else
    let s := chapter_start.getD 0
    let e := chapter_end.getD 0
    let p := rangeResolveLoop chapters_dict (intRangeIncl s e) [] []
    .ok ⟨p.1, p.2⟩

/-! ## Batching (`__main__`, lines 298-302) -/

/-- `limit = args.limit or len(target_chapters)` (line 299): Python `or`
returns the right operand when the left is falsy (`None` or `0`). -/
def computeLimit (argsLimit : Option Int) (n : Nat) : Int :=
  match argsLimit with
  | none => (n : Int)
  | some l => if l = 0 then (n : Int) else l

/-- Python `range(start, stop, step)`; `.error` models the `ValueError`
raised when `step == 0`. -/
def pyRangeStep (start stop step : Int) : Except String (List Int) :=
  if step = 0 then .error "ValueError: range() arg 3 must not be zero"
  else if 0 < step then
    .ok ((List.range ((stop - start + step - 1) / step).toNat).map
      (fun (j : Nat) => start + step * (j : Int)))
  else
    .ok ((List.range ((start - stop + (-step) - 1) / (-step)).toNat).map
      (fun (j : Nat) => start + step * (j : Int)))

/-- Python `l[i:j]` for the nonnegative indices used by the batching loop
(negative wrap-around indexing never arises there). -/
def pySlice (l : List α) (i j : Int) : List α :=
  (l.drop i.toNat).take (j - i).toNat

/-- The batching loop (lines 298-302): `for i in range(0, len(target_chapters),
limit): ... target_chapters[i : i + limit]`.  Each produced slice is one
`asyncio.run(download_chapters(...))` batch. -/
def makeBatches (target_chapters : List ChapterDetail) (argsLimit : Option Int) :
    Except String (List (List ChapterDetail)) :=
  let limit := computeLimit argsLimit target_chapters.length
  (pyRangeStep 0 (target_chapters.length : Int) limit).map
    (fun idxs => idxs.map (fun i => pySlice target_chapters i (i + limit)))

/-- Consecutive chunks of size `L`, last possibly smaller: the spec's
description of batching, used as the refinement target for `makeBatches`. -/
def chunksOf (L : Nat) : List α → List (List α)
  | [] => []
  | a :: l => (a :: l.take (L - 1)) :: chunksOf L (l.drop (L - 1))
  termination_by l => l.length
  decreasing_by simp [List.length_drop]; omega

/-! ## Host-token extraction (`get_chapter_download_and_save_data`, lines 138-145) -/

/-- Greedy capture for the regex tail `(.*)";`: the capture extends to the
*last* occurrence of `";` before the end of the current line (`.` does not
match a newline); `none` when no closing occurrence exists. -/
def captureToClose : List Char → Option (List Char)
  | [] => none
  | c :: rest =>
    if c = '\x0a' then none
    else
      match captureToClose rest with
      | some cap => some (c :: cap)
      | none =>
        match c, rest with
        | '\x22', ';' :: _ => some []
        | _, _ => none

/-- The literal part of the pattern `vm.CurPathName = "(.*)";`.  (The dots in
this part of the pattern are regex wildcards; the model treats them as the
literal dots the page markup contains.) -/
def curPathNameMarker : List Char := "vm.CurPathName = \x22".data

/-- Model of `re.search('vm.CurPathName = "(.*)";', content)` (lines 138-139):
the leftmost position where the literal marker matches and whose line closes
with `";` yields the greedy capture group. -/
def searchCurPathNameAux : List Char → Option (List Char)
  | [] => none
  | c :: rest =>
    if curPathNameMarker.isPrefixOf (c :: rest) then
      match captureToClose ((c :: rest).drop curPathNameMarker.length) with
      | some cap => some cap
      | none => searchCurPathNameAux rest
    else searchCurPathNameAux rest

def searchCurPathName (content : String) : Option String :=
  (searchCurPathNameAux content.data).map String.mk

/-! ## Per-chapter download task (lines 121-179)

Network I/O is an oracle per chapter: the response (body or timeout) of the
page-1 HTML GET, and the response of each page-image GET indexed by page
number.  The filesystem is an association list from path to file content;
directory creation (lines 186-190, 200-201) has no observable effect on the
modelled state and is omitted. -/

inductive FetchOutcome where
  | ok (body : String)
  | timeout
  deriving DecidableEq, Repr

structure ChapterEnv where
  page1 : FetchOutcome
  pageImage : Nat → FetchOutcome

/-- One element of `data` (line 151).  `page` records the 1-based loop index
that produced the element (line 147); it addresses the network oracle. -/
structure PageTask where
  page : Nat
  download_url : String
  save_path : String
  deriving DecidableEq, Repr

inductive DataFetchResult where
  | ok (data : List PageTask)
  | timedOut
  | systemExit (msg : String)
  deriving DecidableEq, Repr

/-- `os.path.join(str(name), str(chapter), f"...")` (line 149) for the
relative components used here (no component starts with a separator, so the
join is concatenation with `/`). -/
def save_path_for (name chapter : String) (page : Nat) : String :=
  name ++ "/" ++ chapter ++ "/" ++ toString page ++ ".png"

/-- The loop body of lines 147-151: one `data` element per page. -/
def mkPageTask (host name chapter : String) (page : Nat) : PageTask :=
  { page := page
    download_url := get_page_image_url_of_str host name chapter page
    save_path := save_path_for name chapter page }

/-- `get_chapter_download_and_save_data` (lines 121-153).  A timeout of the
page-1 HTML request raises `asyncio.TimeoutError` (`timedOut`); an absent
host token raises `SystemExit` (line 145, `systemExit`). -/
def get_chapter_download_and_save_data (env : ChapterEnv) (name chapter : String)
    (pages : Nat) : DataFetchResult :=
  match env.page1 with
  | .timeout => .timedOut
  | .ok content =>
    match searchCurPathName content with
    | some host =>
      .ok ((List.range' 1 pages).map (mkPageTask host name chapter))
    | none => .systemExit "no match for vm.CurPathName found, bailing"

/-- Filesystem state: path to file content, in creation order. -/
abbrev Disk := List (String × String)

/-- `os.path.isfile(path)` (line 170). -/
def isfile (disk : Disk) (path : String) : Bool :=
  disk.any (fun e => e.1 = path)

def fileContent (disk : Disk) (path : String) : Option String :=
  (disk.find? (fun e => e.1 = path)).map (fun e => e.2)

/-- `aiofiles.open(save_path, "wb")` + write (lines 175-176): create or
truncate-overwrite. -/
def writeFile (disk : Disk) (path body : String) : Disk :=
  if disk.any (fun e => e.1 = path) then
    disk.map (fun e => if e.1 = path then (path, body) else e)
  else disk ++ [(path, body)]

/-- A network request issued by the chapter task. -/
inductive Req where
  | chapterHtml
  | pageImage (page : Nat)
  deriving DecidableEq, Repr

inductive ChapterOutcome where
  | Completed
  | TimedOut
  | Bailed (msg : String)
  deriving DecidableEq, Repr

structure ChapterRun where
  disk : Disk
  requests : List Req
  outcome : ChapterOutcome
  deriving DecidableEq, Repr

/-- The `for d in data` loop of `download_and_save_chapter` (lines 166-176):
skip if the file exists, otherwise GET the image and write the body; a timeout
raises `asyncio.TimeoutError`, abandoning the remainder of the loop. -/
def downloadPagesLoop (env : ChapterEnv) :
    List PageTask → Disk → List Req → ChapterRun
  | [], disk, reqs => ⟨disk, reqs, .Completed⟩
  | d :: rest, disk, reqs =>
    if isfile disk d.save_path then
      downloadPagesLoop env rest disk reqs
    else
      match env.pageImage d.page with
      | .timeout => ⟨disk, reqs ++ [.pageImage d.page], .TimedOut⟩
      | .ok body =>
        downloadPagesLoop env rest (writeFile disk d.save_path body)
          (reqs ++ [.pageImage d.page])

/-- `download_and_save_chapter` (lines 156-179): the
`except asyncio.TimeoutError` turns a timeout anywhere in the task into the
printed timeout notice (`TimedOut`); the `SystemExit` raised by the host-token
search is *not* caught there and escapes the task (`Bailed`). -/
def download_and_save_chapter (env : ChapterEnv) (name chapter : String)
    (pages : Nat) (disk : Disk) : ChapterRun :=
  match get_chapter_download_and_save_data env name chapter pages with
  | .timedOut => ⟨disk, [.chapterHtml], .TimedOut⟩
  | .systemExit msg => ⟨disk, [.chapterHtml], .Bailed msg⟩
  | .ok data => downloadPagesLoop env data disk [.chapterHtml]

/-- One chapter argument of `download_chapters`: its catalog record plus the
network oracle answering its requests. -/
structure ChapterSpec where
  env : ChapterEnv
  detail : ChapterDetail

/-- `download_chapters` (lines 182-209): each coroutine is
`download_and_save_chapter(session, name, ch_detail["Chapter"][1:-1],
int(ch_detail["Page"]), ...)` and the coroutines are awaited with
`asyncio.gather`, which propagates an uncaught `SystemExit` (`.error`),
aborting `asyncio.run` and the process.  The gathered tasks are
sequentialized; each task writes only its own chapter directory, so the
serialization order does not affect the final filesystem state. -/
def download_chapters (name : String) :
    List ChapterSpec → Disk → Except String (List ChapterOutcome × Disk)
  | [], disk => .ok ([], disk)
  | s :: rest, disk =>
    match download_and_save_chapter s.env name (sliceOneOne s.detail.Chapter)
        s.detail.Page disk with
    | ⟨_, _, .Bailed msg⟩ => .error msg
    | ⟨disk2, _, .Completed⟩ =>
      (download_chapters name rest disk2).map
        (fun r => (.Completed :: r.1, r.2))
    | ⟨disk2, _, .TimedOut⟩ =>
      (download_chapters name rest disk2).map
        (fun r => (.TimedOut :: r.1, r.2))

/-- Whether a run ended in an uncaught exception. -/
def isError : Except String (List ChapterOutcome × Disk) → Bool
  | .error _ => true
  | .ok _ => false

/-- Concrete catalog with chapter ids 1, 2, 3. -/
def catalog123 : List (Int × ChapterDetail) :=
  [(1, ⟨"100010", 3⟩), (2, ⟨"100020", 3⟩), (3, ⟨"100030", 3⟩)]

/-- Concrete catalog with chapter ids 1, 2, 3, 5 (4 missing). -/
def catalog1235 : List (Int × ChapterDetail) :=
  [(1, ⟨"100010", 3⟩), (2, ⟨"100020", 3⟩), (3, ⟨"100030", 3⟩),
   (5, ⟨"100050", 3⟩)]

/-- A sample resolved chapter record for the batching example. -/
def sampleDetail : ChapterDetail := ⟨"100010", 5⟩

/-- Oracle for the C4 witness: everything fetches successfully. -/
def allOkEnv : ChapterEnv :=
  ⟨.ok "vm.CurPathName = \x22h1\x22;", fun _ => .ok "img"⟩

/-- Disk for the C4 witness: page 2 of chapter `"0001"` is already on disk. -/
def diskWithPage2 : Disk := [("M/0001/2.png", "old-bytes")]

/-- A chapter whose page-1 HTML has no `vm.CurPathName` assignment. -/
def badSpec : ChapterSpec :=
  ⟨⟨.ok "<html>nothing here</html>", fun _ => .ok "img"⟩, ⟨"100010", 2⟩⟩

/-- A healthy sibling chapter: host token present, all pages fetch. -/
def goodSpec : ChapterSpec :=
  ⟨⟨.ok "vm.CurPathName = \x22h1\x22;", fun _ => .ok "img"⟩, ⟨"100020", 2⟩⟩

/-- Oracle for the C2 witness: a 5-page chapter whose page-3 image request
times out; page 1 HTML carries the host token. -/
def timeoutAt3Env : ChapterEnv :=
  ⟨.ok "vm.CurPathName = \x22h1\x22;",
   fun q => if q = 3 then .timeout else .ok "img"⟩

theorem natDigits_ne_nil (n : Nat) : natDigits n ≠ [] := by
  rw [natDigits]
  split <;> simp

theorem digitVal?_digitChar {n : Nat} (h : n < 10) :
    digitVal? (Nat.digitChar n) = some n := by
  interval_cases n <;> decide

theorem digitChar_is_digit {n : Nat} (h : n < 10) :
    '0' ≤ Nat.digitChar n ∧ Nat.digitChar n ≤ '9' := by
  interval_cases n <;> decide

theorem natDigits_all_digits (n : Nat) :
    ∀ c ∈ natDigits n, '0' ≤ c ∧ c ≤ '9' := by
  induction n using Nat.strong_induction_on with
  | _ n ih =>
    rw [natDigits]
    split
    · intro c hc
      rw [List.mem_singleton] at hc
      subst hc
      exact digitChar_is_digit (by omega)
    · intro c hc
      rw [List.mem_append] at hc
      rcases hc with hc | hc
      · exact ih (n / 10) (Nat.div_lt_self (by omega) (by omega)) c hc
      · rw [List.mem_singleton] at hc
        subst hc
        exact digitChar_is_digit (Nat.mod_lt _ (by omega))

theorem toDigitsCore_eq_natDigits (fuel : Nat) :
    ∀ (n : Nat) (ds : List Char), n < fuel →
      Nat.toDigitsCore 10 fuel n ds = natDigits n ++ ds := by
  induction fuel with
  | zero => intro n ds h; omega
  | succ fuel ih =>
    intro n ds h
    show (if n / 10 = 0 then Nat.digitChar (n % 10) :: ds
          else Nat.toDigitsCore 10 fuel (n / 10) (Nat.digitChar (n % 10) :: ds))
        = natDigits n ++ ds
    by_cases h10 : n / 10 = 0
    · have hn : n < 10 := by omega
      rw [if_pos h10, natDigits, dif_pos hn, Nat.mod_eq_of_lt hn]
      rfl
    · have hn : ¬ n < 10 := by
        intro hlt
        exact h10 (Nat.div_eq_of_lt hlt)
      have hdiv : n / 10 < fuel := by
        have : n / 10 < n := Nat.div_lt_self (by omega) (by omega)
        omega
      rw [if_neg h10, ih (n / 10) _ hdiv]
      conv_rhs => rw [natDigits]
      rw [dif_neg hn]
      simp

theorem toString_nat_data (n : Nat) : (toString n).data = natDigits n := by
  show (Nat.repr n).data = natDigits n
  show ((Nat.toDigitsCore 10 (n + 1) n []).asString).data = natDigits n
  rw [toDigitsCore_eq_natDigits (n + 1) n [] (by omega)]
  simp [List.asString]

theorem parseDigitsAux_append (l₁ l₂ : List Char) (acc : Nat)
    (v : Nat) (h : parseDigitsAux l₁ acc = some v) :
    parseDigitsAux (l₁ ++ l₂) acc = parseDigitsAux l₂ v := by
  induction l₁ generalizing acc with
  | nil =>
    simp only [parseDigitsAux] at h
    cases h
    rfl
  | cons c rest ih =>
    simp only [parseDigitsAux] at h ⊢
    cases hd : digitVal? c with
    | none => simp [hd] at h
    | some d =>
      simp only [hd, Option.some_bind] at h ⊢
      exact ih _ h

theorem parseDigitsAux_natDigits (n : Nat) :
    ∀ acc, parseDigitsAux (natDigits n) acc
      = some (acc * 10 ^ (natDigits n).length + n) := by
  induction n using Nat.strong_induction_on with
  | _ n ih =>
    intro acc
    rw [natDigits]
    split
    · next h =>
      simp only [parseDigitsAux, digitVal?_digitChar h, Option.some_bind]
      simp
    · next h =>
      have hq : n / 10 < n := Nat.div_lt_self (by omega) (by omega)
      have step : parseDigitsAux (natDigits (n / 10)) acc
          = some (acc * 10 ^ (natDigits (n / 10)).length + n / 10) := ih _ hq acc
      rw [parseDigitsAux_append _ _ _ _ step]
      simp only [parseDigitsAux, digitVal?_digitChar (Nat.mod_lt n (by omega)),
        Option.some_bind]
      have hmod : 10 * (n / 10) + n % 10 = n := Nat.div_add_mod n 10
      congr 1
      simp only [List.length_append, List.length_singleton]
      ring_nf
      omega

theorem parseDigits_natDigits (n : Nat) : parseDigits (natDigits n) = some n := by
  have hne := natDigits_ne_nil n
  have : parseDigits (natDigits n) = parseDigitsAux (natDigits n) 0 := by
    unfold parseDigits
    cases h : natDigits n with
    | nil => exact absurd h hne
    | cons c rest => rfl
  rw [this, parseDigitsAux_natDigits n 0]
  simp

theorem parseDigits_toString (n : Nat) : parseDigits (toString n).data = some n := by
  rw [toString_nat_data]
  exact parseDigits_natDigits n

theorem toString_nat_injective {a b : Nat} (h : toString a = toString b) : a = b := by
  have ha := parseDigits_toString a
  have hb := parseDigits_toString b
  rw [h, hb] at ha
  exact (Option.some.inj ha).symm

theorem dictGet_dictInsert_self (k : Int) (v : ChapterDetail)
    (d : List (Int × ChapterDetail)) : dictGet (dictInsert k v d) k = some v := by
  induction d with
  | nil => simp [dictInsert, dictGet]
  | cons e rest ih =>
    by_cases he : e.1 = k
    · simp [dictInsert, dictGet, he]
    · by_cases hrest : rest.any (fun e => e.1 = k)
      · have hins : dictInsert k v (e :: rest)
            = e :: rest.map (fun e => if e.1 = k then (k, v) else e) := by
          simp [dictInsert, he, hrest]
        have hins' : dictInsert k v rest
            = rest.map (fun e => if e.1 = k then (k, v) else e) := by
          simp [dictInsert, hrest]
        rw [hins, dictGet, List.find?_cons_of_neg _ (by simp [he]), ← dictGet, ← hins']
        exact ih
      · have hins : dictInsert k v (e :: rest) = e :: (rest ++ [(k, v)]) := by
          simp [dictInsert, he, hrest]
        have hins' : dictInsert k v rest = rest ++ [(k, v)] := by
          simp [dictInsert, hrest]
        rw [hins, dictGet, List.find?_cons_of_neg _ (by simp [he]), ← dictGet, ← hins']
        exact ih

theorem dictGet_dictInsert_ne (k k' : Int) (v : ChapterDetail)
    (d : List (Int × ChapterDetail)) (hne : k' ≠ k) :
    dictGet (dictInsert k v d) k' = dictGet d k' := by
  unfold dictInsert
  by_cases hany : d.any (fun e => e.1 = k)
  · rw [if_pos hany]
    unfold dictGet
    rw [List.find?_map]
    have hpred : ((fun e : Int × ChapterDetail => decide (e.1 = k'))
          ∘ (fun e => if e.1 = k then (k, v) else e))
        = fun e : Int × ChapterDetail => decide (e.1 = k') := by
      funext e
      by_cases he : e.1 = k
      · simp only [Function.comp_apply, if_pos he]
        have h1 : ¬ ((k, v) : Int × ChapterDetail).1 = k' := fun h => hne h.symm
        have h2 : ¬ e.1 = k' := by rw [he]; exact fun h => hne h.symm
        simp [h1, h2]
      · simp [Function.comp_apply, if_neg he]
    rw [hpred]
    cases hfind : d.find? (fun e => decide (e.1 = k')) with
    | none => simp
    | some e =>
      have hp := List.find?_some hfind
      have he' : e.1 = k' := by simpa using hp
      have : ¬ e.1 = k := by rw [he']; exact hne
      simp [this]
  · rw [if_neg hany]
    unfold dictGet
    rw [List.find?_append]
    have hk : ¬ ((k, v) : Int × ChapterDetail).1 = k' := fun h => hne h.symm
    have : List.find? (fun e : Int × ChapterDetail => decide (e.1 = k')) [(k, v)]
        = none := by
      simp [hk]
    rw [this, Option.or_none]

/-- Characterization of the catalog build: looking up `k` returns the *last*
entry of the source array whose label normalizes to `k` (falling back to the
accumulator), i.e. later duplicates overwrite earlier ones. -/
theorem buildChapterDetailsDict_get (l : List ChapterDetail) :
    ∀ (acc d : List (Int × ChapterDetail)) (k : Int),
      buildChapterDetailsDict l acc = .ok d →
      dictGet d k =
        ((l.filter (fun cd => chapterIdOfLabel cd.Chapter == some k)).getLast?).or
          (dictGet acc k) := by
  induction l with
  | nil =>
    intro acc d k h
    cases h
    simp
  | cons cd rest ih =>
    intro acc d k h
    unfold buildChapterDetailsDict at h
    cases hid : chapterIdOfLabel cd.Chapter with
    | none => rw [hid] at h; cases h
    | some kc =>
      rw [hid] at h
      have hrec := ih (dictInsert kc cd acc) d k h
      rw [List.filter_cons]
      by_cases hk : kc = k
      · subst hk
        have : (chapterIdOfLabel cd.Chapter == some kc) = true := by
          rw [hid]; simp
        rw [if_pos this]
        cases hlast : (rest.filter
            (fun cd => chapterIdOfLabel cd.Chapter == some kc)).getLast? with
        | none =>
          rw [hlast, Option.none_or] at hrec
          have hnil : rest.filter (fun cd => chapterIdOfLabel cd.Chapter == some kc)
              = [] := List.getLast?_eq_none_iff.mp hlast
          rw [hnil]
          have hsing : ([cd] : List ChapterDetail).getLast? = some cd := rfl
          rw [hsing, Option.or_some, hrec, dictGet_dictInsert_self]
        | some x =>
          rw [hlast] at hrec
          rw [hrec, Option.or_some]
          cases hfil : rest.filter (fun cd => chapterIdOfLabel cd.Chapter == some kc) with
          | nil => rw [hfil] at hlast; simp at hlast
          | cons y ys =>
            rw [hfil] at hlast
            rw [List.getLast?_cons_cons, hlast, Option.or_some]
      · have : ¬ ((chapterIdOfLabel cd.Chapter == some k) = true) := by
          rw [hid]; simp; omega
        rw [if_neg this]
        rw [hrec, dictGet_dictInsert_ne kc k cd acc (fun h' => hk h'.symm)]

theorem rangeResolveLoop_eq (d : List (Int × ChapterDetail)) (chs : List Int) :
    ∀ targets missing,
      rangeResolveLoop d chs targets missing
        = (targets ++ chs.filterMap (dictGet d),
           missing ++ chs.filter (fun ch => (dictGet d ch).isNone)) := by
  induction chs with
  | nil => intro targets missing; simp [rangeResolveLoop]
  | cons ch rest ih =>
    intro targets missing
    cases hch : dictGet d ch with
    | none =>
      simp only [rangeResolveLoop, hch]
      rw [ih]
      simp [List.filterMap_cons, List.filter_cons, hch, List.append_assoc]
    | some r =>
      simp only [rangeResolveLoop, hch]
      rw [ih]
      simp [List.filterMap_cons, List.filter_cons, hch, List.append_assoc]

theorem chunksOf_nil (L : Nat) : chunksOf L ([] : List ChapterDetail) = [] := by
  rw [chunksOf]

theorem slices_eq_chunksOf_aux (L : Nat) (hL : 0 < L) :
    ∀ (n : Nat) (l : List ChapterDetail), l.length ≤ n →
      (List.range ((l.length + L - 1) / L)).map
        (fun j => (l.drop (L * j)).take L) = chunksOf L l := by
  intro n
  induction n with
  | zero =>
    intro l hl
    have : l = [] := List.length_eq_zero.mp (Nat.le_zero.mp hl)
    subst this
    have hcnt : (0 + L - 1) / L = 0 := Nat.div_eq_of_lt (by omega)
    simp only [List.length_nil, hcnt, List.range_zero, List.map_nil]
    rw [chunksOf]
  | succ n ih =>
    intro l hl
    cases l with
    | nil =>
      have hcnt : (0 + L - 1) / L = 0 := Nat.div_eq_of_lt (by omega)
      simp only [List.length_nil, hcnt, List.range_zero, List.map_nil]
      rw [chunksOf]
    | cons a l' =>
      by_cases hsmall : (a :: l').length ≤ L
      · have hcnt : ((a :: l').length + L - 1) / L = 1 := by
          apply Nat.div_eq_of_lt_le
          · simp only [Nat.one_mul]
            have : 1 ≤ (a :: l').length := by simp
            omega
          · have : 1 ≤ (a :: l').length := by simp
            omega
        rw [hcnt]
        have hmap : (List.range 1).map (fun j => ((a :: l').drop (L * j)).take L)
            = [((a :: l').drop 0).take L] := by rfl
        rw [hmap]
        simp only [List.drop_zero]
        rw [List.take_of_length_le hsmall]
        rw [chunksOf]
        have h1 : l'.take (L - 1) = l' := by
          apply List.take_of_length_le
          simp at hsmall ⊢
          omega
        have h2 : l'.drop (L - 1) = [] := by
          apply List.drop_eq_nil_of_le
          simp at hsmall ⊢
          omega
        rw [h1, h2, chunksOf]
      · push_neg at hsmall
        have hlen1 : 1 ≤ (a :: l').length := by simp
        have hsplit : (a :: l').length + L - 1
            = ((a :: l').length - L + L - 1) + L := by omega
        rw [hsplit, Nat.add_div_right _ hL]
        rw [List.range_succ_eq_map, List.map_cons, List.map_map]
        have hfirst : ((a :: l').drop (L * 0)).take L = (a :: l').take L := by
          simp
        rw [hfirst]
        have hcomp :
            ((fun j => ((a :: l').drop (L * j)).take L) ∘ Nat.succ)
              = fun j => (((a :: l').drop L).drop (L * j)).take L := by
          funext j
          simp only [Function.comp_apply, List.drop_drop]
          congr 2
          rw [Nat.mul_succ]
          omega
        rw [hcomp]
        have hlen' : ((a :: l').drop L).length = (a :: l').length - L := by
          simp
        have hih := ih ((a :: l').drop L) (by simp at hl ⊢; omega)
        rw [hlen'] at hih
        rw [hih]
        rw [chunksOf]
        congr 1
        · cases hLL : L with
          | zero => omega
          | succ L0 =>
            simp only [Nat.succ_sub_one, List.take_succ_cons]
        · cases hLL : L with
          | zero => omega
          | succ L0 =>
            simp only [Nat.succ_sub_one, List.drop_succ_cons]

theorem makeBatches_some_pos (targets : List ChapterDetail) (L : Int)
    (hL : 0 < L) :
    makeBatches targets (some L) = .ok (chunksOf L.toNat targets) := by
  obtain ⟨m, rfl⟩ : ∃ m : Nat, L = (m : Int) :=
    ⟨L.toNat, (Int.toNat_of_nonneg (by omega)).symm⟩
  have hm : 0 < m := by exact_mod_cast hL
  have hm0 : ¬ ((m : Int) = 0) := by exact_mod_cast Nat.pos_iff_ne_zero.mp hm
  rw [Int.toNat_ofNat]
  simp only [makeBatches, computeLimit, pyRangeStep, if_neg hm0, if_pos hL]
  set n := targets.length with hn
  have h1 : (n : Int) - 0 + (m : Int) - 1 = ((n + m - 1 : Nat) : Int) := by
    omega
  rw [h1, ← Int.natCast_div, Int.toNat_ofNat]
  simp only [Except.map]
  congr 1
  rw [← slices_eq_chunksOf_aux m hm n targets (le_refl _), List.map_map]
  apply List.map_congr_left
  intro j _hj
  simp only [Function.comp_apply]
  unfold pySlice
  have h2 : ((0 : Int) + (m : Int) * (j : Int)).toNat = m * j := by
    rw [Int.zero_add, ← Int.natCast_mul, Int.toNat_ofNat]
  have h3 : ((0 + (m : Int) * (j : Int) + (m : Int))
      - (0 + (m : Int) * (j : Int))).toNat = m := by
    omega
  rw [h2, h3]

theorem makeBatches_none_nonempty (targets : List ChapterDetail)
    (h : targets ≠ []) :
    makeBatches targets none = .ok [targets] := by
  have hn : 0 < targets.length := List.length_pos.mpr h
  have h0 : ¬ ((targets.length : Int) = 0) := by
    exact_mod_cast Nat.pos_iff_ne_zero.mp hn
  have hpos : (0 : Int) < (targets.length : Int) := by exact_mod_cast hn
  simp only [makeBatches, computeLimit, pyRangeStep, if_neg h0, if_pos hpos]
  set n := targets.length with hnn
  have h1 : (n : Int) - 0 + (n : Int) - 1 = ((n + n - 1 : Nat) : Int) := by
    omega
  rw [h1, ← Int.natCast_div]
  have h2 : (n + n - 1) / n = 1 := by
    apply Nat.div_eq_of_lt_le <;> omega
  rw [h2, Int.toNat_ofNat]
  simp only [Except.map]
  have h3 : List.range 1 = [0] := rfl
  rw [h3, List.map_cons, List.map_nil, List.map_cons, List.map_nil]
  unfold pySlice
  congr 2
  have h4 : ((0 : Int) + (n : Int) * ((0 : Nat) : Int)).toNat = 0 := by
    simp
  have h5 : ((0 + (n : Int) * ((0 : Nat) : Int) + (n : Int))
      - (0 + (n : Int) * ((0 : Nat) : Int))).toNat = n := by
    omega
  rw [h4, h5, List.drop_zero, hnn, List.take_length]

/-! ## Invariants of the page-download loop -/

theorem writeFile_fresh (disk : Disk) (path body : String)
    (h : isfile disk path = false) :
    writeFile disk path body = disk ++ [(path, body)] := by
  unfold writeFile
  unfold isfile at h
  rw [if_neg (by rw [h]; exact Bool.false_ne_true)]

theorem isfile_append_left (disk : Disk) (e : String × String) (p : String)
    (h : isfile disk p = true) : isfile (disk ++ [e]) p = true := by
  unfold isfile at h ⊢
  rw [List.any_append, h, Bool.true_or]

theorem fileContent_append_of_isfile (disk : Disk) (e : String × String)
    (p : String) (h : isfile disk p = true) :
    fileContent (disk ++ [e]) p = fileContent disk p := by
  unfold fileContent
  rw [List.find?_append]
  cases hf : disk.find? (fun e => e.1 = p) with
  | none =>
    exfalso
    unfold isfile at h
    rw [List.any_eq_true] at h
    obtain ⟨x, hx, hpx⟩ := h
    have : (disk.find? (fun e => e.1 = p)).isSome := by
      rw [List.find?_isSome]
      exact ⟨x, hx, hpx⟩
    rw [hf] at this
    simp at this
  | some x => rfl

theorem isfile_append_of_eq (disk : Disk) (path body : String) :
    isfile (disk ++ [(path, body)]) path = true := by
  unfold isfile
  rw [List.any_append]
  simp

/-- Pages already on disk are never re-requested and never rewritten by the
loop: `isfile` short-circuits before any network use of the file's path. -/
theorem downloadPagesLoop_preserves (env : ChapterEnv) (tasks : List PageTask) :
    ∀ (disk : Disk) (reqs : List Req) (p : String), isfile disk p = true →
      isfile (downloadPagesLoop env tasks disk reqs).disk p = true ∧
      fileContent (downloadPagesLoop env tasks disk reqs).disk p
        = fileContent disk p := by
  induction tasks with
  | nil => intro disk reqs p h; exact ⟨h, rfl⟩
  | cons d rest ih =>
    intro disk reqs p h
    unfold downloadPagesLoop
    by_cases hf : isfile disk d.save_path = true
    · rw [if_pos hf]
      exact ih disk reqs p h
    · rw [if_neg hf]
      cases henv : env.pageImage d.page with
      | timeout => exact ⟨h, rfl⟩
      | ok body =>
        dsimp only
        rw [writeFile_fresh disk d.save_path body (by
          cases hb : isfile disk d.save_path with
          | false => rfl
          | true => exact absurd hb hf)]
        have hne : p ≠ d.save_path := by
          intro he
          rw [he] at h
          exact hf h
        have h1 : isfile (disk ++ [(d.save_path, body)]) p = true :=
          isfile_append_left disk _ p h
        obtain ⟨ha, hb⟩ := ih (disk ++ [(d.save_path, body)])
          (reqs ++ [Req.pageImage d.page]) p h1
        refine ⟨ha, ?_⟩
        rw [hb, fileContent_append_of_isfile disk _ p h]

/-- If the destination file of page `k` exists when the loop starts, the loop
issues no request for page `k` (provided every task numbered `k` targets that
same path, as the tasks built by `mkPageTask` do). -/
theorem downloadPagesLoop_no_request (env : ChapterEnv) (tasks : List PageTask)
    (P : String) (k : Nat)
    (htask : ∀ d ∈ tasks, d.page = k → d.save_path = P) :
    ∀ (disk : Disk) (reqs : List Req), isfile disk P = true →
      Req.pageImage k ∈ (downloadPagesLoop env tasks disk reqs).requests →
      Req.pageImage k ∈ reqs := by
  induction tasks with
  | nil => intro disk reqs _ hmem; exact hmem
  | cons d rest ih =>
    intro disk reqs hP hmem
    have htask' : ∀ d ∈ rest, d.page = k → d.save_path = P := by
      intro d' hd' hk
      exact htask d' (List.mem_cons_of_mem _ hd') hk
    unfold downloadPagesLoop at hmem
    by_cases hf : isfile disk d.save_path = true
    · rw [if_pos hf] at hmem
      exact ih htask' disk reqs hP hmem
    · rw [if_neg hf] at hmem
      have hdk : d.page ≠ k := by
        intro he
        have := htask d (List.mem_cons_self _ _) he
        rw [this] at hf
        exact hf hP
      cases henv : env.pageImage d.page with
      | timeout =>
        rw [henv] at hmem
        dsimp only at hmem
        rcases List.mem_append.mp hmem with hmem | hmem
        · exact hmem
        · rw [List.mem_singleton] at hmem
          cases hmem
          exact absurd rfl hdk
      | ok body =>
        rw [henv] at hmem
        dsimp only at hmem
        have h1 : isfile (writeFile disk d.save_path body) P = true := by
          rw [writeFile_fresh disk d.save_path body (by
            cases hb : isfile disk d.save_path with
            | false => rfl
            | true => exact absurd hb hf)]
          exact isfile_append_left disk _ P hP
        have h2 := ih htask' (writeFile disk d.save_path body)
          (reqs ++ [Req.pageImage d.page]) h1 hmem
        rcases List.mem_append.mp h2 with h2 | h2
        · exact h2
        · rw [List.mem_singleton] at h2
          cases h2
          exact absurd rfl hdk

theorem mkPageTask_page (host name chapter : String) (page : Nat) :
    (mkPageTask host name chapter page).page = page := rfl

theorem mkPageTask_save_path (host name chapter : String) (page : Nat) :
    (mkPageTask host name chapter page).save_path
      = save_path_for name chapter page := rfl

/-- The per-page save paths of one chapter are pairwise distinct: the path
embeds the decimal page number, and decimal strings are injective. -/
theorem save_path_for_inj (name chapter : String) {a b : Nat}
    (h : save_path_for name chapter a = save_path_for name chapter b) : a = b := by
  unfold save_path_for at h
  have h' := congrArg String.data h
  simp only [String.data_append, List.append_assoc] at h'
  have h2 := List.append_cancel_left h'
  have h3 := List.append_cancel_left h2
  have h4 := List.append_cancel_left h3
  have h5 := List.append_cancel_left h4
  have h6 := List.append_cancel_right h5
  rw [toString_nat_data, toString_nat_data] at h6
  have hr := parseDigits_natDigits a
  rw [h6, parseDigits_natDigits b] at hr
  exact (Option.some.inj hr).symm

theorem isfile_append_singleton_elim (disk : Disk) (path body p : String)
    (h : isfile (disk ++ [(path, body)]) p = true) :
    isfile disk p = true ∨ p = path := by
  unfold isfile at h ⊢
  rw [List.any_append] at h
  rcases Bool.or_eq_true_iff.mp h with h | h
  · exact Or.inl h
  · right
    simp at h
    exact h.symm

/-- Running the loop over tasks for pages that are each on disk or fetchable
reaches the remainder with: the loop equation, preservation of existing files,
new files only at those pages' paths, and new requests only for those pages. -/
theorem downloadPagesLoop_good_prefix (env : ChapterEnv)
    (host name chapter : String) :
    ∀ (l : List Nat) (rest : List PageTask) (disk : Disk) (reqs : List Req),
      (∀ q ∈ l, isfile disk (save_path_for name chapter q) = true ∨
        ∃ b, env.pageImage q = .ok b) →
      ∃ disk2 newreqs,
        downloadPagesLoop env (l.map (mkPageTask host name chapter) ++ rest)
            disk reqs
          = downloadPagesLoop env rest disk2 (reqs ++ newreqs) ∧
        (∀ p, isfile disk p = true → isfile disk2 p = true ∧
          fileContent disk2 p = fileContent disk p) ∧
        (∀ p, isfile disk2 p = true → isfile disk p = true ∨
          ∃ q ∈ l, p = save_path_for name chapter q) ∧
        (∀ r ∈ newreqs, ∃ q ∈ l, r = Req.pageImage q) := by
  intro l
  induction l with
  | nil =>
    intro rest disk reqs _
    refine ⟨disk, [], by simp, fun p hp => ⟨hp, rfl⟩, fun p hp => Or.inl hp, by simp⟩
  | cons q l' ih =>
    intro rest disk reqs hgood
    simp only [List.map_cons, List.cons_append]
    by_cases hf : isfile disk (save_path_for name chapter q) = true
    · have hstep : downloadPagesLoop env
          (mkPageTask host name chapter q
            :: (l'.map (mkPageTask host name chapter) ++ rest)) disk reqs
          = downloadPagesLoop env (l'.map (mkPageTask host name chapter) ++ rest)
              disk reqs := by
        conv_lhs => unfold downloadPagesLoop
        rw [mkPageTask_save_path, if_pos hf]
      rw [hstep]
      obtain ⟨disk2, newreqs, heq, hpres, hnew, hreq⟩ :=
        ih rest disk reqs (fun qq hqq => hgood qq (List.mem_cons_of_mem _ hqq))
      refine ⟨disk2, newreqs, heq, hpres, ?_, ?_⟩
      · intro p hp
        rcases hnew p hp with hp1 | ⟨qq, hqq, hqeq⟩
        · exact Or.inl hp1
        · exact Or.inr ⟨qq, List.mem_cons_of_mem _ hqq, hqeq⟩
      · intro r hr
        obtain ⟨qq, hqq, hqeq⟩ := hreq r hr
        exact ⟨qq, List.mem_cons_of_mem _ hqq, hqeq⟩
    · rcases hgood q (List.mem_cons_self _ _) with hq | ⟨b, hb⟩
      · exact absurd hq hf
      · have hffalse : isfile disk (save_path_for name chapter q) = false := by
          cases hb2 : isfile disk (save_path_for name chapter q) with
          | false => rfl
          | true => exact absurd hb2 hf
        have hstep : downloadPagesLoop env
            (mkPageTask host name chapter q
              :: (l'.map (mkPageTask host name chapter) ++ rest)) disk reqs
            = downloadPagesLoop env
                (l'.map (mkPageTask host name chapter) ++ rest)
                (disk ++ [(save_path_for name chapter q, b)])
                (reqs ++ [Req.pageImage q]) := by
          conv_lhs => unfold downloadPagesLoop
          rw [mkPageTask_save_path, if_neg hf, mkPageTask_page, hb]
          dsimp only
          rw [writeFile_fresh disk (save_path_for name chapter q) b hffalse]
        rw [hstep]
        have hgood' : ∀ qq ∈ l',
            isfile (disk ++ [(save_path_for name chapter q, b)])
              (save_path_for name chapter qq) = true ∨
            ∃ b2, env.pageImage qq = .ok b2 := by
          intro qq hqq
          rcases hgood qq (List.mem_cons_of_mem _ hqq) with h1 | h2
          · exact Or.inl (isfile_append_left disk _ _ h1)
          · exact Or.inr h2
        obtain ⟨disk2, newreqs, heq, hpres, hnew, hreq⟩ :=
          ih rest (disk ++ [(save_path_for name chapter q, b)])
            (reqs ++ [Req.pageImage q]) hgood'
        refine ⟨disk2, Req.pageImage q :: newreqs, ?_, ?_, ?_, ?_⟩
        · rw [heq]
          congr 1
          simp [List.append_assoc]
        · intro p hp
          have h1 : isfile (disk ++ [(save_path_for name chapter q, b)]) p = true :=
            isfile_append_left disk _ p hp
          obtain ⟨ha, hb2⟩ := hpres p h1
          refine ⟨ha, ?_⟩
          rw [hb2, fileContent_append_of_isfile disk _ p hp]
        · intro p hp
          rcases hnew p hp with h1 | ⟨qq, hqq, hqeq⟩
          · rcases isfile_append_singleton_elim disk _ b p h1 with h2 | h2
            · exact Or.inl h2
            · exact Or.inr ⟨q, List.mem_cons_self _ _, h2⟩
          · exact Or.inr ⟨qq, List.mem_cons_of_mem _ hqq, hqeq⟩
        · intro r hr
          rcases List.mem_cons.mp hr with hr | hr
          · exact ⟨q, List.mem_cons_self _ _, hr⟩
          · obtain ⟨qq, hqq, hqeq⟩ := hreq r hr
            exact ⟨qq, List.mem_cons_of_mem _ hqq, hqeq⟩

/-! ## Auxiliary facts about padding and parsing -/

theorem parseDigits_eq_aux {l : List Char} (h : l ≠ []) :
    parseDigits l = parseDigitsAux l 0 := by
  cases l with
  | nil => exact absurd rfl h
  | cons c rest => rfl

theorem parseDigitsAux_zeros (m : Nat) (l : List Char) :
    parseDigitsAux (List.replicate m '0' ++ l) 0 = parseDigitsAux l 0 := by
  induction m with
  | zero => rfl
  | succ m ih =>
    rw [List.replicate_succ, List.cons_append]
    show (digitVal? '0').bind
        (fun d => parseDigitsAux (List.replicate m '0' ++ l) (0 * 10 + d))
      = parseDigitsAux l 0
    rw [show digitVal? '0' = some 0 from rfl, Option.some_bind]
    simpa using ih

/-- Zero-padding preserves the decimal value. -/
theorem parseDigits_add_leading_zeros (num k : Nat) :
    parseDigits (add_leading_zeros num k).data = some num := by
  unfold add_leading_zeros zfill
  rw [String.data_append]
  have hmk : (String.mk (List.replicate (k - (toString num).length) '0')).data
      = List.replicate (k - (toString num).length) '0' := rfl
  rw [hmk, toString_nat_data]
  have hne : List.replicate (k - (toString num).length) '0' ++ natDigits num ≠ [] := by
    intro h
    rcases List.append_eq_nil.mp h with ⟨_, h2⟩
    exact natDigits_ne_nil num h2
  rw [parseDigits_eq_aux hne, parseDigitsAux_zeros]
  have := parseDigits_natDigits num
  rw [parseDigits_eq_aux (natDigits_ne_nil num)] at this
  exact this

theorem string_length_mk (l : List Char) : (String.mk l).length = l.length := rfl

theorem string_length_append (s t : String) :
    (s ++ t).length = s.length + t.length := by
  show (s ++ t).data.length = s.data.length + t.data.length
  rw [String.data_append, List.length_append]

/-- Padding to width `k` yields exactly `k` characters when the number has at
most `k` digits. -/
theorem add_leading_zeros_length (num k : Nat) (hk : 0 < k)
    (h : num < 10 ^ k) : (add_leading_zeros num k).length = k := by
  have hlen : (toString num).length ≤ k := Nat.repr_length num k hk h
  unfold add_leading_zeros zfill
  rw [string_length_append, string_length_mk, List.length_replicate]
  omega

/-- Parsing the decimal print of a natural number returns it: `int ∘ str = id`
on the values flowing through `remove_leading_zeros`. -/
theorem pyIntBase10_toString_nat (v : Nat) :
    pyIntBase10 (toString v) = some (v : Int) := by
  unfold pyIntBase10
  cases hd : (toString v).data with
  | nil =>
    exfalso
    rw [toString_nat_data] at hd
    exact natDigits_ne_nil v hd
  | cons c rest =>
    have hc : c ∈ natDigits v := by
      rw [toString_nat_data] at hd
      rw [hd]
      exact List.mem_cons_self _ _
    have hdig := natDigits_all_digits v c hc
    have hc1 : ¬ (c = '-') := by
      intro h
      rw [h] at hdig
      exact absurd hdig.1 (by decide)
    have hc2 : ¬ (c = '+') := by
      intro h
      rw [h] at hdig
      exact absurd hdig.1 (by decide)
    dsimp only
    rw [if_neg hc1, if_neg hc2]
    have hp : parseDigits (c :: rest) = some v := by
      rw [← hd]
      exact parseDigits_toString v
    rw [hp]
    rfl

/-- `toString` of a natural number seen as a Python/`Int` value. -/
theorem toString_intCast_nat (v : Nat) : toString ((v : Int)) = toString v := rfl

/-! ## Claim theorems -/

/-- C5 counterexample: the claim says a label decorated as `"c{n}"` normalizes
to `n`, in particular `"c007" ↦ 7`.  The code slices off the first *and last*
character (`label[1:-1]`), so `"c007"` reduces to `int("00") = 0`, not `7`. -/
theorem c5_normalize_counterexample :
    chapterIdOfLabel "c007" = some 0 ∧ chapterIdOfLabel "c007" ≠ some 7 := by
  constructor
  · rfl
  · intro h
    rw [show chapterIdOfLabel "c007" = some 0 from rfl] at h
    cases h

/-- C5 (amended): normalization strips one leading *and one trailing*
decoration character and then drops leading zeros by a base-10 parse: for any
label `a ++ digits ++ b` whose middle is a digit string of value `v`, the
normalized chapter id is `v`; e.g. `"c0070" ↦ 7`, while `"c007" ↦ 0`. -/
theorem c5_normalize_amended (a b : Char) (mid : String) (v : Nat)
    (hparse : parseDigits mid.data = some v) :
    chapterIdOfLabel (String.mk (a :: mid.data ++ [b])) = some (v : Int) := by
  unfold chapterIdOfLabel
  have hslice : sliceOneOne (String.mk (a :: mid.data ++ [b])) = String.mk mid.data := by
    unfold sliceOneOne
    congr 1
    rw [show (String.mk (a :: mid.data ++ [b])).data = a :: mid.data ++ [b] from rfl]
    rw [List.cons_append, List.drop_one, List.tail_cons, List.dropLast_concat]
  rw [hslice]
  have hpy : pyIntBase10 (String.mk mid.data) = some (v : Int) := by
    unfold pyIntBase10
    cases hm : mid.data with
    | nil => rw [hm] at hparse; cases hparse
    | cons c rest =>
      rw [hm] at hparse
      have hc1 : ¬ (c = '-') := by
        intro h
        rw [h] at hparse
        rw [parseDigits_eq_aux (by simp)] at hparse
        rw [show parseDigitsAux ('-' :: rest) 0
            = (digitVal? '-').bind (fun d => parseDigitsAux rest (0 * 10 + d))
          from rfl, show digitVal? '-' = none from rfl, Option.none_bind] at hparse
        cases hparse
      have hc2 : ¬ (c = '+') := by
        intro h
        rw [h] at hparse
        rw [parseDigits_eq_aux (by simp)] at hparse
        rw [show parseDigitsAux ('+' :: rest) 0
            = (digitVal? '+').bind (fun d => parseDigitsAux rest (0 * 10 + d))
          from rfl, show digitVal? '+' = none from rfl, Option.none_bind] at hparse
        cases hparse
      dsimp only
      rw [if_neg hc1, if_neg hc2, hparse]
      rfl
  unfold remove_leading_zeros
  rw [hpy]
  rw [Option.map_some', Option.some_bind, toString_intCast_nat]
  exact pyIntBase10_toString_nat v

/-- C5 witness: the amended normalization at the concrete label `"c0070"`. -/
theorem c5_normalize_amended_witness :
    parseDigits ("007" : String).data = some 7 ∧
    chapterIdOfLabel (String.mk ('c' :: ("007" : String).data ++ ['0'])) = some 7 ∧
    String.mk ('c' :: ("007" : String).data ++ ['0']) = "c0070" :=
  ⟨by decide, c5_normalize_amended 'c' '0' "007" 7 (by decide), by decide⟩

/-- C6: `get_page_image_url` is a pure function of `(host, series, chapter,
page)` whose output is the fixed URL scheme with the chapter zero-padded to
width 4 and the page to width 3 (value preserved); chapter 7 / page 23
produce the path segment `0007-023.png`. -/
theorem c6_image_url_format (host name : String) (chapter page : Nat)
    (hc : chapter < 10000) (hp : page < 1000) :
    get_page_image_url host name chapter page
      = "https://" ++ host ++ "/manga/" ++ name ++ "/"
        ++ add_leading_zeros chapter 4 ++ "-" ++ add_leading_zeros page 3 ++ ".png"
    ∧ (add_leading_zeros chapter 4).length = 4
    ∧ (add_leading_zeros page 3).length = 3
    ∧ parseDigits (add_leading_zeros chapter 4).data = some chapter
    ∧ parseDigits (add_leading_zeros page 3).data = some page
    ∧ get_page_image_url host name 7 23
      = "https://" ++ host ++ "/manga/" ++ name ++ "/0007-023.png" := by
  refine ⟨rfl, add_leading_zeros_length chapter 4 (by omega) (by omega),
    add_leading_zeros_length page 3 (by omega) (by omega),
    parseDigits_add_leading_zeros chapter 4, parseDigits_add_leading_zeros page 3,
    ?_⟩
  show "https://" ++ host ++ "/manga/" ++ name ++ "/"
      ++ add_leading_zeros 7 4 ++ "-" ++ add_leading_zeros 23 3 ++ ".png"
    = "https://" ++ host ++ "/manga/" ++ name ++ "/0007-023.png"
  rw [show add_leading_zeros 7 4 = "0007" from rfl,
    show add_leading_zeros 23 3 = "023" from rfl]
  apply String.ext
  simp only [String.data_append, List.append_assoc]
  rfl

/-- C6 witness: the URL format at a concrete quadruple. -/
theorem c6_image_url_format_witness :
    (7 : Nat) < 10000 ∧ (23 : Nat) < 1000 ∧
    get_page_image_url "s99.mp3cdn.net" "One-Piece" 7 23
      = "https://" ++ "s99.mp3cdn.net" ++ "/manga/" ++ "One-Piece"
        ++ "/0007-023.png" ∧
    (add_leading_zeros 7 4).length = 4 :=
  ⟨by decide, by decide,
    (c6_image_url_format "s99.mp3cdn.net" "One-Piece" 7 23 (by decide)
      (by decide)).2.2.2.2.2,
    (c6_image_url_format "s99.mp3cdn.net" "One-Piece" 7 23 (by decide)
      (by decide)).2.1⟩

/-- C9: the catalog dict maps each chapter id to the *last* entry of the
`vm.CHAPTERS` array whose label normalizes to that id — later duplicates
silently overwrite earlier ones. -/
theorem c9_last_write_wins (l : List ChapterDetail)
    (d : List (Int × ChapterDetail)) (k : Int)
    (h : buildChapterDetailsDict l [] = .ok d) :
    dictGet d k
      = (l.filter (fun cd => chapterIdOfLabel cd.Chapter == some k)).getLast? := by
  rw [buildChapterDetailsDict_get l [] d k h]
  rw [show dictGet [] k = none from rfl, Option.or_none]

/-- C9 witness: two catalog entries whose labels `"100010"` and `"100015"`
both normalize to chapter id 1; the built dict holds the second. -/
theorem c9_last_write_wins_witness :
    buildChapterDetailsDict
        [⟨"100010", 5⟩, ⟨"100015", 7⟩] [] = .ok [(1, ⟨"100015", 7⟩)] ∧
    dictGet [(1, (⟨"100015", 7⟩ : ChapterDetail))] 1 = some ⟨"100015", 7⟩ := by
  refine ⟨rfl, ?_⟩
  rw [c9_last_write_wins [⟨"100010", 5⟩, ⟨"100015", 7⟩]
    [(1, ⟨"100015", 7⟩)] 1 rfl]
  decide

/-- C10: with an empty resolved list and no limit (or an explicit limit of 0),
Python computes `limit = 0` and `range(0, 0, 0)` raises an uncaught
`ValueError`: the run crashes instead of completing with an empty summary. -/
theorem c10_empty_batch_crash :
    computeLimit none 0 = 0 ∧ computeLimit (some 0) 0 = 0 ∧
    makeBatches ([] : List ChapterDetail) none
      = .error "ValueError: range() arg 3 must not be zero" ∧
    makeBatches ([] : List ChapterDetail) (some 0)
      = .error "ValueError: range() arg 3 must not be zero" :=
  ⟨rfl, rfl, rfl, rfl⟩

/-- C3 counterexample: the claim says Single(9) against catalog `{1,2,3}`
yields `resolved = []`, `missing = {9}` and the run proceeds.  The code raises
`KeyError` on `chapters_dict[9]`, and the handler prints and exits: the
resolution is an aborted run, not `([], {9})`. -/
theorem c3_single_missing_counterexample :
    resolveTargets catalog123 (some 9) none
      = .error "Could not find specified chapter(s)!" ∧
    resolveTargets catalog123 (some 9) none
      ≠ .ok ⟨[], [9]⟩ := by
  constructor
  · rfl
  · intro h
    rw [show resolveTargets catalog123 (some 9) none
        = .error "Could not find specified chapter(s)!" from rfl] at h
    cases h

/-- C3 (amended): for a Single(n) selector whose id is absent from the
catalog, `chapters_dict[n]` raises `KeyError`; the handler prints the
available range and the catalog's internal gaps and calls `sys.exit()` — the
run terminates instead of proceeding with an empty resolution. -/
theorem c3_single_missing_exit (d : List (Int × ChapterDetail)) (n : Int)
    (hn : n ≠ 0) (habs : dictGet d n = none) :
    resolveTargets d (some n) none
      = .error "Could not find specified chapter(s)!" := by
  unfold resolveTargets
  have h1 : pyTruthyOptInt (some n) = true := by
    simp [pyTruthyOptInt, hn]
  rw [if_neg (by simp [h1])]
  rw [if_pos (show pyTruthyOptInt none = false from rfl)]
  rw [show (some n).getD 0 = n from rfl, habs]

/-- C3 witness: the amended behavior at catalog `{1,2,3}` and id 9. -/
theorem c3_single_missing_exit_witness :
    (9 : Int) ≠ 0 ∧ dictGet catalog123 9 = none ∧
    resolveTargets catalog123 (some 9) none
      = .error "Could not find specified chapter(s)!" :=
  ⟨by decide, by decide, c3_single_missing_exit catalog123 9 (by decide) (by decide)⟩

/-- C7: a Range(start, end) selector walks the inclusive integer range,
resolving each present id in ascending walk order and reporting each absent id
in `missing`, without aborting. -/
theorem c7_range_resolution (d : List (Int × ChapterDetail)) (s e : Int)
    (hs : s ≠ 0) (he : e ≠ 0) :
    resolveTargets d (some s) (some e)
      = .ok ⟨(intRangeIncl s e).filterMap (dictGet d),
             (intRangeIncl s e).filter (fun ch => (dictGet d ch).isNone)⟩ := by
  unfold resolveTargets
  have h1 : pyTruthyOptInt (some s) = true := by
    simp [pyTruthyOptInt, hs]
  have h2 : pyTruthyOptInt (some e) = true := by
    simp [pyTruthyOptInt, he]
  rw [if_neg (by simp [h1])]
  rw [if_neg (by simp [h2])]
  dsimp only
  rw [rangeResolveLoop_eq]
  simp

/-- C7 witness: catalog `{1,2,3,5}` with Range(1,5): the records for 1,2,3,5
in ascending order, and 4 reported missing. -/
theorem c7_range_resolution_witness :
    resolveTargets catalog1235 (some 1) (some 5)
      = .ok ⟨[⟨"100010", 3⟩, ⟨"100020", 3⟩, ⟨"100030", 3⟩, ⟨"100050", 3⟩],
             [4]⟩ := by
  rw [c7_range_resolution catalog1235 1 5 (by decide) (by decide)]
  rfl

/-- C8: with a supplied positive limit `L` the batching loop produces exactly
the consecutive chunks of size `L` (last possibly smaller), run sequentially
in order; with no limit the whole (nonempty) list is one batch; 5 chapters
with limit 2 give three batches of sizes 2, 2, 1. -/
theorem c8_batching (targets : List ChapterDetail) (L : Int) :
    (0 < L → makeBatches targets (some L) = .ok (chunksOf L.toNat targets)) ∧
    (targets ≠ [] → makeBatches targets none = .ok [targets]) ∧
    Except.map (fun bs => bs.map List.length)
        (makeBatches (List.replicate 5 sampleDetail) (some 2))
      = .ok [2, 2, 1] := by
  exact ⟨fun hL => makeBatches_some_pos targets L hL,
    fun h => makeBatches_none_nonempty targets h, rfl⟩

/-- C8 witness: the batching equations at limit 2 over five chapters, and the
single-batch case for the same nonempty list with no limit. -/
theorem c8_batching_witness :
    makeBatches (List.replicate 5 sampleDetail) (some 2)
      = .ok (chunksOf (2 : Int).toNat (List.replicate 5 sampleDetail)) ∧
    makeBatches (List.replicate 5 sampleDetail) none
      = .ok [List.replicate 5 sampleDetail] :=
  ⟨(c8_batching (List.replicate 5 sampleDetail) 2).1 (by decide),
   (c8_batching (List.replicate 5 sampleDetail) 2).2.1 (by simp)⟩

/-- Core of C4: a page whose destination file exists when the task starts is
never requested, and its stored content is untouched by the task. -/
theorem download_chapter_skip_existing (env : ChapterEnv) (name chapter : String)
    (n k : Nat) (disk : Disk)
    (h : isfile disk (save_path_for name chapter k) = true) :
    Req.pageImage k ∉ (download_and_save_chapter env name chapter n disk).requests ∧
    fileContent (download_and_save_chapter env name chapter n disk).disk
        (save_path_for name chapter k)
      = fileContent disk (save_path_for name chapter k) := by
  unfold download_and_save_chapter get_chapter_download_and_save_data
  cases env.page1 with
  | timeout =>
    dsimp only
    exact ⟨by simp, rfl⟩
  | ok content =>
    dsimp only
    cases searchCurPathName content with
    | none =>
      dsimp only
      exact ⟨by simp, rfl⟩
    | some host =>
      dsimp only
      constructor
      · intro hmem
        have htask : ∀ d ∈ (List.range' 1 n).map (mkPageTask host name chapter),
            d.page = k → d.save_path = save_path_for name chapter k := by
          intro d hd hk
          obtain ⟨q, _, rfl⟩ := List.mem_map.mp hd
          rw [mkPageTask_page] at hk
          rw [mkPageTask_save_path, hk]
        have := downloadPagesLoop_no_request env _ _ k htask disk
          [Req.chapterHtml] h hmem
        simp at this
      · exact (downloadPagesLoop_preserves env _ disk [Req.chapterHtml]
          (save_path_for name chapter k) h).2

/-- C4: a page whose destination file already exists when the chapter task
reaches it gets no network request and keeps its content; consequently a
second run of the task over the disk left by a first run that wrote page `k`
issues no request for page `k`. -/
theorem c4_skip_if_exists (env env2 : ChapterEnv) (name chapter : String)
    (n k : Nat) (disk : Disk) :
    (isfile disk (save_path_for name chapter k) = true →
      Req.pageImage k ∉ (download_and_save_chapter env name chapter n disk).requests ∧
      fileContent (download_and_save_chapter env name chapter n disk).disk
          (save_path_for name chapter k)
        = fileContent disk (save_path_for name chapter k)) ∧
    (isfile (download_and_save_chapter env name chapter n disk).disk
        (save_path_for name chapter k) = true →
      Req.pageImage k ∉
        (download_and_save_chapter env2 name chapter n
          (download_and_save_chapter env name chapter n disk).disk).requests) :=
  ⟨fun h => download_chapter_skip_existing env name chapter n k disk h,
   fun h => (download_chapter_skip_existing env2 name chapter n k _ h).1⟩

/-- C4 witness: with page 2 pre-existing, a 3-page chapter task requests only
pages 1 and 3, leaves page 2's bytes alone, and a repeat run over the
resulting disk requests nothing for page 2 (nor, having written them, for
pages 1 and 3). -/
theorem c4_skip_if_exists_witness :
    isfile diskWithPage2 (save_path_for "M" "0001" 2) = true ∧
    Req.pageImage 2 ∉
      (download_and_save_chapter allOkEnv "M" "0001" 3 diskWithPage2).requests ∧
    fileContent (download_and_save_chapter allOkEnv "M" "0001" 3
        diskWithPage2).disk (save_path_for "M" "0001" 2)
      = some "old-bytes" ∧
    isfile (download_and_save_chapter allOkEnv "M" "0001" 3 diskWithPage2).disk
        (save_path_for "M" "0001" 2) = true ∧
    Req.pageImage 2 ∉
      (download_and_save_chapter allOkEnv "M" "0001" 3
        (download_and_save_chapter allOkEnv "M" "0001" 3 diskWithPage2).disk).requests := by
  have h0 : isfile diskWithPage2 (save_path_for "M" "0001" 2) = true := by decide
  have h1 := (c4_skip_if_exists allOkEnv allOkEnv "M" "0001" 3 2 diskWithPage2).1 h0
  have h2 : isfile (download_and_save_chapter allOkEnv "M" "0001" 3
      diskWithPage2).disk (save_path_for "M" "0001" 2) = true := by decide
  have h3 := (c4_skip_if_exists allOkEnv allOkEnv "M" "0001" 3 2 diskWithPage2).2 h2
  refine ⟨h0, h1.1, ?_, h2, h3⟩
  rw [h1.2]
  decide

/-- A chapter whose page-1 HTML lacks the host token makes its task raise the
uncaught `SystemExit`. -/
theorem download_chapter_bails (env : ChapterEnv) (name chapter : String)
    (n : Nat) (disk : Disk) (content : String)
    (h1 : env.page1 = .ok content) (h2 : searchCurPathName content = none) :
    download_and_save_chapter env name chapter n disk
      = ⟨disk, [.chapterHtml],
          .Bailed "no match for vm.CurPathName found, bailing"⟩ := by
  unfold download_and_save_chapter get_chapter_download_and_save_data
  rw [h1]
  dsimp only
  rw [h2]

/-- C1 (amended): if any chapter in a gathered batch has the host token absent
from its page-1 HTML, the `SystemExit` raised there is not caught by the
chapter task (which catches only `asyncio.TimeoutError`); it propagates
through `asyncio.gather` and the whole run errors out — sibling chapters are
not shielded from it. -/
theorem c1_host_token_abort (name : String) (specs : List ChapterSpec)
    (disk : Disk)
    (h : ∃ s ∈ specs, ∃ content, s.env.page1 = .ok content ∧
      searchCurPathName content = none) :
    isError (download_chapters name specs disk) = true := by
  induction specs generalizing disk with
  | nil =>
    obtain ⟨s, hs, _⟩ := h
    simp at hs
  | cons s0 rest ih =>
    obtain ⟨s, hs, content, hc1, hc2⟩ := h
    rcases List.mem_cons.mp hs with heq | hmem
    · subst heq
      have hrun := download_chapter_bails s.env name
        (sliceOneOne s.detail.Chapter) s.detail.Page disk content hc1 hc2
      conv_lhs => unfold download_chapters
      rw [hrun]
      rfl
    · cases hrun : download_and_save_chapter s0.env name
          (sliceOneOne s0.detail.Chapter) s0.detail.Page disk with
      | mk disk2 reqs2 outc =>
        cases outc with
        | Bailed msg =>
          conv_lhs => unfold download_chapters
          rw [hrun]
          rfl
        | Completed =>
          have hrest := ih disk2 ⟨s, hmem, content, hc1, hc2⟩
          conv_lhs => unfold download_chapters
          rw [hrun]
          dsimp only
          cases hres : download_chapters name rest disk2 with
          | error msg => rfl
          | ok r => rw [hres] at hrest; cases hrest
        | TimedOut =>
          have hrest := ih disk2 ⟨s, hmem, content, hc1, hc2⟩
          conv_lhs => unfold download_chapters
          rw [hrun]
          dsimp only
          cases hres : download_chapters name rest disk2 with
          | error msg => rfl
          | ok r => rw [hres] at hrest; cases hrest

/-- C1 counterexample: with the token-less chapter and a healthy sibling in
one batch, the run does not complete with per-chapter outcomes — it aborts
with the `SystemExit` message, so the failure is not contained to the one
chapter. -/
theorem c1_host_token_counterexample :
    download_chapters "Manga" [badSpec, goodSpec] []
      = .error "no match for vm.CurPathName found, bailing" ∧
    (download_and_save_chapter goodSpec.env "Manga"
        (sliceOneOne goodSpec.detail.Chapter) goodSpec.detail.Page []).outcome
      = .Completed := by
  constructor
  · rfl
  · rfl

/-- C1 witness: the amended statement applied to the concrete two-chapter
batch. -/
theorem c1_host_token_abort_witness :
    isError (download_chapters "Manga" [badSpec, goodSpec] []) = true :=
  c1_host_token_abort "Manga" [badSpec, goodSpec] []
    ⟨badSpec, List.mem_cons_self _ _, "<html>nothing here</html>", rfl, by decide⟩

/-- C2: a timeout at page `p` of an `n`-page chapter (all earlier pages on
disk or fetchable) makes the task stop: outcome `TimedOut`, no request for any
page after `p`, exactly one (unretried) request for page `p`, every
already-present file kept bit-for-bit, pages from `p` on unwritten — and a
sibling chapter in the same gathered batch still reaches `Completed`. -/
theorem c2_timeout_isolation
    (env : ChapterEnv) (name chapter : String) (n p : Nat) (disk : Disk)
    (content host : String)
    (h1 : env.page1 = .ok content)
    (h2 : searchCurPathName content = some host)
    (hp1 : 1 ≤ p) (hp2 : p ≤ n)
    (htimeout : env.pageImage p = .timeout)
    (hnotdisk : isfile disk (save_path_for name chapter p) = false)
    (hbefore : ∀ q, q < p → 1 ≤ q →
      isfile disk (save_path_for name chapter q) = true ∨
      ∃ b, env.pageImage q = .ok b) :
    (download_and_save_chapter env name chapter n disk).outcome = .TimedOut ∧
    (∀ q, p < q →
      Req.pageImage q ∉ (download_and_save_chapter env name chapter n disk).requests) ∧
    (download_and_save_chapter env name chapter n disk).requests.count
        (Req.pageImage p) = 1 ∧
    (∀ pa, isfile disk pa = true →
      isfile (download_and_save_chapter env name chapter n disk).disk pa = true ∧
      fileContent (download_and_save_chapter env name chapter n disk).disk pa
        = fileContent disk pa) ∧
    (∀ q, p ≤ q →
      isfile (download_and_save_chapter env name chapter n disk).disk
          (save_path_for name chapter q)
        = isfile disk (save_path_for name chapter q)) ∧
    (∀ s1 s2 : ChapterSpec, s1.env = env →
      sliceOneOne s1.detail.Chapter = chapter → s1.detail.Page = n →
      (download_and_save_chapter s2.env name (sliceOneOne s2.detail.Chapter)
          s2.detail.Page
          (download_and_save_chapter env name chapter n disk).disk).outcome
        = .Completed →
      ∃ d2, download_chapters name [s1, s2] disk
        = .ok ([.TimedOut, .Completed], d2)) := by
  have hstart : download_and_save_chapter env name chapter n disk
      = downloadPagesLoop env
          ((List.range' 1 n).map (mkPageTask host name chapter)) disk
          [.chapterHtml] := by
    unfold download_and_save_chapter get_chapter_download_and_save_data
    rw [h1]
    dsimp only
    rw [h2]
  have hsplit : List.range' 1 n
      = List.range' 1 (p - 1) ++ List.range' p (n - p + 1) := by
    have h := List.range'_append_1 1 (p - 1) (n - p + 1)
    rw [show 1 + (p - 1) = p by omega, show (n - p + 1) + (p - 1) = n by omega] at h
    exact h.symm
  have hmem1 : ∀ q ∈ List.range' 1 (p - 1), 1 ≤ q ∧ q < p := by
    intro q hq
    rw [List.mem_range'] at hq
    obtain ⟨i, hi, rfl⟩ := hq
    omega
  obtain ⟨disk2, newreqs, heq, hpres, hnew, hreq⟩ :=
    downloadPagesLoop_good_prefix env host name chapter (List.range' 1 (p - 1))
      ((List.range' p (n - p + 1)).map (mkPageTask host name chapter)) disk
      [.chapterHtml]
      (fun q hq => hbefore q (hmem1 q hq).2 (hmem1 q hq).1)
  have hfp : isfile disk2 (save_path_for name chapter p) = false := by
    cases hx : isfile disk2 (save_path_for name chapter p) with
    | false => rfl
    | true =>
      rcases hnew _ hx with hcontr | ⟨q, hq, heqpath⟩
      · rw [hcontr] at hnotdisk
        cases hnotdisk
      · have hpq : p = q := save_path_for_inj name chapter heqpath
        have := (hmem1 q hq).2
        omega
  have hsucc : List.range' p (n - p + 1) = p :: List.range' (p + 1) (n - p) :=
    List.range'_succ p (n - p) 1
  have hheadstep : downloadPagesLoop env
      (mkPageTask host name chapter p
        :: (List.range' (p + 1) (n - p)).map (mkPageTask host name chapter))
      disk2 ([Req.chapterHtml] ++ newreqs)
      = ⟨disk2, ([Req.chapterHtml] ++ newreqs) ++ [Req.pageImage p],
          .TimedOut⟩ := by
    conv_lhs => unfold downloadPagesLoop
    rw [mkPageTask_save_path, if_neg (by simp [hfp]), mkPageTask_page, htimeout]
  have hfinal : download_and_save_chapter env name chapter n disk
      = ⟨disk2, ([Req.chapterHtml] ++ newreqs) ++ [Req.pageImage p],
          .TimedOut⟩ := by
    rw [hstart, hsplit, List.map_append, heq, hsucc, List.map_cons, hheadstep]
  have hreqlt : ∀ r ∈ newreqs, ∃ q, q < p ∧ r = Req.pageImage q := by
    intro r hr
    obtain ⟨q, hq, hqeq⟩ := hreq r hr
    exact ⟨q, (hmem1 q hq).2, hqeq⟩
  refine ⟨by rw [hfinal], ?_, ?_, ?_, ?_, ?_⟩
  · intro q hq hmemq
    rw [hfinal] at hmemq
    dsimp only at hmemq
    rcases List.mem_append.mp hmemq with hmemq | hmemq
    · rcases List.mem_append.mp hmemq with hmemq | hmemq
      · rw [List.mem_singleton] at hmemq
        cases hmemq
      · obtain ⟨q', hq', hqeq⟩ := hreqlt _ hmemq
        cases hqeq
        omega
    · rw [List.mem_singleton] at hmemq
      cases hmemq
      omega
  · rw [hfinal]
    dsimp only
    rw [List.count_append, List.count_append]
    have hz1 : ([Req.chapterHtml] : List Req).count (Req.pageImage p) = 0 := rfl
    have hz2 : newreqs.count (Req.pageImage p) = 0 := by
      rw [List.count_eq_zero]
      intro hmemq
      obtain ⟨q', hq', hqeq⟩ := hreqlt _ hmemq
      cases hqeq
      omega
    rw [hz1, hz2, List.count_singleton_self]
  · intro pa hpa
    rw [hfinal]
    exact hpres pa hpa
  · intro q hq
    rw [hfinal]
    dsimp only
    cases hd : isfile disk (save_path_for name chapter q) with
    | true => exact (hpres _ hd).1
    | false =>
      cases hx : isfile disk2 (save_path_for name chapter q) with
      | false => rfl
      | true =>
        rcases hnew _ hx with hcontr | ⟨q', hq', heqpath⟩
        · rw [hcontr] at hd
          cases hd
        · have hqq : q = q' := save_path_for_inj name chapter heqpath
          have := (hmem1 q' hq').2
          omega
  · intro s1 s2 hs1env hs1chap hs1page hs2comp
    have hrun1 : download_and_save_chapter s1.env name
        (sliceOneOne s1.detail.Chapter) s1.detail.Page disk
        = ⟨disk2, ([Req.chapterHtml] ++ newreqs) ++ [Req.pageImage p],
            .TimedOut⟩ := by
      rw [hs1env, hs1chap, hs1page]
      exact hfinal
    have hdisk : (download_and_save_chapter env name chapter n disk).disk
        = disk2 := by rw [hfinal]
    rw [hdisk] at hs2comp
    cases hrun2 : download_and_save_chapter s2.env
        (name) (sliceOneOne s2.detail.Chapter) s2.detail.Page disk2 with
    | mk d3 reqs3 outc3 =>
      have houtc : outc3 = .Completed := by
        rw [hrun2] at hs2comp
        exact hs2comp
      subst houtc
      refine ⟨d3, ?_⟩
      conv_lhs => unfold download_chapters
      rw [hrun1]
      dsimp only
      conv_lhs => unfold download_chapters
      rw [hrun2]
      dsimp only
      conv_lhs => unfold download_chapters
      rfl

/-- C2 witness: the simulated timeout on page 3 of a 5-page chapter yields
`TimedOut`, no requests for pages 4 and 5, a single unretried request for
page 3, page 3 absent from disk afterwards, and the sibling chapter of the
batch still `Completed`. -/
theorem c2_timeout_isolation_witness :
    (download_and_save_chapter timeoutAt3Env "M" "0001" 5 []).outcome
      = .TimedOut ∧
    Req.pageImage 4 ∉
      (download_and_save_chapter timeoutAt3Env "M" "0001" 5 []).requests ∧
    Req.pageImage 5 ∉
      (download_and_save_chapter timeoutAt3Env "M" "0001" 5 []).requests ∧
    (download_and_save_chapter timeoutAt3Env "M" "0001" 5 []).requests.count
        (Req.pageImage 3) = 1 ∧
    isfile (download_and_save_chapter timeoutAt3Env "M" "0001" 5 []).disk
        (save_path_for "M" "0001" 3) = false ∧
    download_chapters "M" [⟨timeoutAt3Env, ⟨"100010", 5⟩⟩, goodSpec] []
      = .ok ([.TimedOut, .Completed],
          [("M/0001/1.png", "img"), ("M/0001/2.png", "img"),
           ("M/0002/1.png", "img"), ("M/0002/2.png", "img")]) := by
  have hbefore : ∀ q, q < 3 → 1 ≤ q →
      isfile [] (save_path_for "M" "0001" q) = true ∨
      ∃ b, timeoutAt3Env.pageImage q = .ok b := by
    intro q hq _
    right
    refine ⟨"img", ?_⟩
    show (if q = 3 then FetchOutcome.timeout else .ok "img") = .ok "img"
    rw [if_neg (by omega)]
  have h := c2_timeout_isolation timeoutAt3Env "M" "0001" 5 3 []
    "vm.CurPathName = \x22h1\x22;" "h1" rfl (by decide) (by decide) (by decide)
    rfl rfl hbefore
  refine ⟨h.1, h.2.1 4 (by omega), h.2.1 5 (by omega), h.2.2.1, ?_, rfl⟩
  have h5 := h.2.2.2.2.1 3 (by omega)
  rw [h5]
  rfl

end MangaseeDL
